import Mathlib

/-!
Shallow embedding of the resilient rate-resolution engine of the
currencyconv repository (`apiService` second revision, `currencyConverter.js`).

Conventions of the embedding:
* JS numbers used as rates/amounts/latencies are modelled as `ℚ`
  (all values reachable here are finite decimals); where JS produces `NaN`
  or `Infinity` the model uses the explicit `JSNumber` type.
* Timestamps (`Date.now()`, ISO strings) are modelled as `ℕ` milliseconds.
* `localStorage` is an association list from string keys to stored values.
  A stored value is either a serialized rate table (`JSON.stringify` of a
  rates object), a serialized timestamp (`toISOString`), or foreign junk.
  `JSON.stringify`/`JSON.parse` round-trip on rate tables is modelled as
  the identity; `JSON.parse` of non-table text throws, modelled by `none`.
* Thrown JS exceptions are modelled with `Except JsError`; a `try/catch`
  in the source becomes an explicit `match` on the `Except` value.
-/

/-- A rate table: finite map from currency code to multiplier, in
insertion order (a JS object of currency → number). -/
abbrev RateTable := List (String × ℚ)

/-- `rates[code]` property lookup: first binding wins (JS object keys are
unique, lookup models property access returning `undefined` on absence). -/
def lookupRate (rates : RateTable) (code : String) : Option ℚ :=
  (rates.find? (fun kv => kv.1 = code)).map (·.2)

/-- A value held in `localStorage`.  `table` is the `JSON.stringify` of a
rates object, `time` the `toISOString` of a timestamp (ms since epoch),
`raw` any other string (e.g. foreign keys of the same origin). -/
inductive StoredVal where
  | table (t : RateTable)
  | time (t : ℕ)
  | raw (s : String)
deriving DecidableEq

/-- The `localStorage` contents: association list, keys unique in any
store the browser actually produces. -/
abbrev Store := List (String × StoredVal)

/-- `localStorage.getItem(k)`: first binding for `k`, or `null`. -/
def getItem (k : String) (s : Store) : Option StoredVal :=
  (s.find? (fun kv => kv.1 = k)).map (·.2)

/-- `localStorage.setItem(k, v)`: overwrite in place if present
(enumeration order of an existing key is kept), else append. -/
def setItem (k : String) (v : StoredVal) (s : Store) : Store :=
  if s.any (fun kv => kv.1 = k) then
    s.map (fun kv => if kv.1 = k then (k, v) else kv)
  else
    s ++ [(k, v)]

/-- `localStorage.removeItem(k)`. -/
def removeItem (k : String) (s : Store) : Store :=
  s.filter (fun kv => kv.1 ≠ k)

/-- `Object.keys(localStorage)`. -/
def storeKeys (s : Store) : List String := s.map (·.1)

/-- `String.prototype.startsWith` (model over the underlying char list). -/
def strStartsWith (s p : String) : Bool := p.data.isPrefixOf s.data

/-- `key.replace(pre, repl)` for the one use in the source, where `pre` is
known to occur as a prefix of `key`: the first occurrence is the prefix. -/
def replacePrefixStr (s pre repl : String) : String :=
  if strStartsWith s pre then repl ++ ⟨s.data.drop pre.data.length⟩ else s

namespace ExchangeRateAPIService

/-- `this.cacheKey`. -/
def cacheKey : String := "exchangeRates"

/-- `this.cacheTimestampKey`. -/
def cacheTimestampKey : String := "exchangeRatesTimestamp"

/-- `this.cacheDuration` — 5 minutes in ms. -/
def cacheDuration : ℕ := 5 * 60 * 1000

/-- `this.minRequestInterval` — 1 second in ms. -/
def minRequestInterval : ℕ := 1000

/-- The data key `` `${this.cacheKey}_${baseCurrency}` ``. -/
def cacheKeyFor (b : String) : String := cacheKey ++ "_" ++ b

/-- The timestamp key `` `${this.cacheTimestampKey}_${baseCurrency}` ``. -/
def tsKeyFor (b : String) : String := cacheTimestampKey ++ "_" ++ b

/-- The hardcoded `this.fallbackRates` table (June 2025 snapshot). -/
def fallbackRates : RateTable :=
  [("EUR", 0.876), ("GBP", 0.738), ("JPY", 156.2), ("AUD", 1.542),
   ("CAD", 1.384), ("CHF", 0.891), ("CNY", 7.245), ("INR", 83.12),
   ("KRW", 1398.5), ("MXN", 18.75), ("SGD", 1.348), ("HKD", 7.785),
   ("NOK", 10.85), ("SEK", 10.42), ("DKK", 6.53), ("PLN", 4.12),
   ("CZK", 23.15), ("HUF", 385.2), ("RUB", 89.5), ("BRL", 5.48),
   ("ZAR", 18.25), ("TRY", 32.85), ("ILS", 3.68), ("AED", 3.673),
   ("SAR", 3.751), ("THB", 36.45), ("MYR", 4.685), ("IDR", 16125),
   ("PHP", 58.25), ("VND", 24850), ("EGP", 49.15), ("NGN", 1545),
   ("KES", 129.5), ("GHS", 15.85), ("MAD", 9.82)]

/-- The value `getCachedRates` returns on a hit: parsed rates, the raw
stored timestamp string, and the computed age (`none` models `NaN`,
from `new Date(junk).getTime()`). -/
structure CacheHit where
  rates : RateTable
  timestamp : StoredVal
  age : Option ℤ
deriving DecidableEq

/-- Exceptions that can travel through the service. -/
inductive JsError where
  | transport
  | httpStatus (status : ℕ)
  | invalidFormat
  | storage
  | jsonParse
  | thrownUndefined
deriving DecidableEq

/-- Body of `getCachedRates` before its `try/catch`: reads both keys
(`readOk = false` models a throwing storage read), checks
`allowStale || age < cacheDuration`, and `JSON.parse`s the data
(throwing on non-table text). -/
def getCachedRatesRaw (store : Store) (readOk : Bool) (now : ℕ)
    (b : String) (allowStale : Bool) : Except JsError (Option CacheHit) :=
  if readOk = false then .error .storage else
  match getItem (cacheKeyFor b) store, getItem (tsKeyFor b) store with
  | some data, some ts =>
    let ageOpt : Option ℤ := match ts with
      | .time t => some ((now : ℤ) - (t : ℤ))
      | _ => none
    let fresh : Bool := match ageOpt with
      | some a => decide (a < (cacheDuration : ℤ))
      | none => false        -- `NaN < cacheDuration` is false
    if allowStale || fresh then
      match data with
      | .table T => .ok (some ⟨T, ts, ageOpt⟩)
      | _ => .error .jsonParse
    else .ok none
  | _, _ => .ok none

/-- `getCachedRates` with its `try/catch`: any throw yields `null`. -/
def getCachedRates (store : Store) (readOk : Bool) (now : ℕ)
    (b : String) (allowStale : Bool) : Option CacheHit :=
  match getCachedRatesRaw store readOk now b allowStale with
  | .ok v => v
  | .error _ => none

/-- One `keys.forEach` step of `cleanOldCache`: a key starting with the
timestamp prefix whose stored timestamp is older than `2 × cacheDuration`
is removed together with its data key (`key.replace(tsPrefix, dataPrefix)`).
A non-`time` value gives `NaN` age, and `NaN > x` is false. -/
def cleanStep (now : ℕ) (s : Store) (key : String) : Store :=
  if strStartsWith key cacheTimestampKey then
    match getItem key s with
    | some v =>
      let remove : Bool := match v with
        | .time t => decide (((now : ℤ) - (t : ℤ)) > 2 * (cacheDuration : ℤ))
        | _ => false
      if remove then
        let dataKey := replacePrefixStr key cacheTimestampKey cacheKey
        removeItem dataKey (removeItem key s)
      else s
    | none => s
  else s

/-- `cleanOldCache`: sweep over the keys present when it starts. -/
def cleanOldCache (store : Store) (now : ℕ) : Store :=
  (storeKeys store).foldl (cleanStep now) store

/-- `cacheRates`: store data and timestamp for the base currency, then
sweep.  (The surrounding `try/catch` only swallows storage-write
failures, which this model does not produce.) -/
def cacheRates (store : Store) (now : ℕ) (b : String) (rates : RateTable) : Store :=
  cleanOldCache
    (setItem (tsKeyFor b) (.time now) (setItem (cacheKeyFor b) (.table rates) store))
    now

/-- `clearCache`: remove every key starting with `cacheKey` or
`cacheTimestampKey`, iterating over the keys present at the start. -/
def clearCache (store : Store) : Store :=
  (storeKeys store).foldl
    (fun s key =>
      if strStartsWith key cacheKey || strStartsWith key cacheTimestampKey then
        removeItem key s
      else s)
    store

/-- The outcome the environment hands a single network attempt
(`fetch` + `response.json()`): either a transport-level failure
(connection error or the 10 s abort), or a response with its `ok` flag,
status, and the optional `rates` / `conversion_rates` / `base` fields of
the parsed body. -/
inductive AttemptResult where
  | transportFail
  | httpResponse (ok : Bool) (status : ℕ) (rates conversionRates : Option RateTable)
      (base : Option String)

/-- What `fetchWithRetry` returns on success: the normalized table
(`data.rates || data.conversion_rates`) and base (`data.base || baseCurrency`). -/
structure Fetched where
  rates : RateTable
  base : String
deriving DecidableEq

/-- The `try` body of one endpoint attempt in `fetchWithRetry`: throws on
transport failure, on `!response.ok`, and on a body with neither a
`rates` nor a `conversion_rates` field; otherwise returns the table
(`rates` wins over `conversion_rates`, any present object is truthy). -/
def attemptEval (a : AttemptResult) (baseCurrency : String) : Except JsError Fetched :=
  match a with
  | .transportFail => .error .transport
  | .httpResponse ok status r cr base =>
    if ok = false then .error (.httpStatus status)
    else
      match r with
      | some t => .ok ⟨t, base.getD baseCurrency⟩
      | none =>
        match cr with
        | some t => .ok ⟨t, base.getD baseCurrency⟩
        | none => .error .invalidFormat

/-- Observable events of the fetch pipeline: the start of the network
attempt for (round, endpoint index), and a backoff sleep of `ms`. -/
inductive FetchEv where
  | attemptAt (round urlIdx : ℕ)
  | sleep (ms : ℕ)
deriving DecidableEq

/-- The inner `for (const url of urls)` loop of one round: on success
stop with the result; on failure record the error as `lastError` and — when
`round < maxRetries - 1` — sleep `1000 × (round + 1)` ms before moving on
(the sleep sits inside the per-endpoint `catch`). -/
def fetchRound (o : ℕ → ℕ → AttemptResult) (b : String) (maxRetries round : ℕ) :
    List ℕ → Option JsError → Option Fetched × Option JsError × List FetchEv
  | [], le => (none, le, [])
  | u :: us, le =>
    match attemptEval (o round u) b with
    | .ok f => (some f, le, [.attemptAt round u])
    | .error e =>
      let sleeps : List FetchEv :=
        if round < maxRetries - 1 then [.sleep (1000 * (round + 1))] else []
      let rest := fetchRound o b maxRetries round us (some e)
      (rest.1, rest.2.1, .attemptAt round u :: (sleeps ++ rest.2.2))

/-- The outer retry loop: `fuel` rounds remain, `round` is the current
round index; exhaustion throws the last observed error. -/
def fetchRounds (o : ℕ → ℕ → AttemptResult) (b : String) (maxRetries : ℕ) :
    ℕ → ℕ → Option JsError → Except JsError Fetched × List FetchEv
  | _, 0, le => (.error (le.getD .thrownUndefined), [])
  | round, fuel + 1, le =>
    let r := fetchRound o b maxRetries round [0, 1] le
    match r.1 with
    | some f => (.ok f, r.2.2)
    | none =>
      let next := fetchRounds o b maxRetries (round + 1) fuel r.2.1
      (next.1, r.2.2 ++ next.2)

/-- `fetchWithRetry(baseCurrency, maxRetries = 3)`: two endpoint URLs
(primary, fallback) per round, `maxRetries` rounds.  The oracle `o`
gives the outcome of the attempt at (round, endpoint index).  Returns
the result together with the trace of attempts and sleeps. -/
def fetchWithRetry (o : ℕ → ℕ → AttemptResult) (b : String) (maxRetries : ℕ := 3) :
    Except JsError Fetched × List FetchEv :=
  fetchRounds o b maxRetries 0 maxRetries none

/-- The metrics counters of `PerformanceMetrics`. -/
structure Metrics where
  apiCalls : ℕ
  cacheHits : ℕ
  errors : ℕ
  totalResponseTime : ℚ
  averageResponseTime : ℚ
deriving DecidableEq

/-- The constructor / `reset()` state. -/
def Metrics.init : Metrics := ⟨0, 0, 0, 0, 0⟩

/-- `recordApiSuccess(responseTime)`. -/
def recordApiSuccess (m : Metrics) (responseTime : ℚ) : Metrics :=
  let apiCalls := m.apiCalls + 1
  let total := m.totalResponseTime + responseTime
  { m with apiCalls := apiCalls, totalResponseTime := total,
           averageResponseTime := total / (apiCalls : ℚ) }

/-- `recordCacheHit(responseTime)`. -/
def recordCacheHit (m : Metrics) : Metrics :=
  { m with cacheHits := m.cacheHits + 1 }

/-- `recordApiError(responseTime, message)`. -/
def recordApiError (m : Metrics) : Metrics :=
  { m with errors := m.errors + 1 }

/-- A JS number that may be `NaN` or `Infinity` (division corner cases). -/
inductive JSNumber where
  | num (q : ℚ)
  | nan
  | inf
deriving DecidableEq

/-- JS division of two nonnegative counters: `0/0` is `NaN`, `x/0` with
`x ≠ 0` is `Infinity`. -/
def jsDivNat (a b : ℕ) : JSNumber :=
  if b = 0 then (if a = 0 then .nan else .inf) else .num ((a : ℚ) / (b : ℚ))

/-- JS multiplication of such a value by the literal `100`. -/
def jsMul100 : JSNumber → JSNumber
  | .num q => .num (q * 100)
  | .nan => .nan
  | .inf => .inf

/-- `getMetrics()` of `PerformanceMetrics`: the counters plus the derived
`cacheHitRate = cacheHits / (apiCalls + cacheHits) * 100`, computed with
no guard against a zero denominator. -/
def getMetrics (m : Metrics) : Metrics × JSNumber :=
  (m, jsMul100 (jsDivNat m.cacheHits (m.apiCalls + m.cacheHits)))

/-- The `source` strings of results of `getExchangeRates`. -/
inductive Source where
  | cache
  | offline_cache
  | fallback
  | api
  | error_fallback_cache
  | error_fallback_hardcoded
deriving DecidableEq

/-- The six provenance tags (the spec's names for them are `cache`,
`offline_cache`, `static_fallback`, `network`, `error_cache_fallback`,
`error_static_fallback`, in this order). -/
def sourceTags : List Source :=
  [.cache, .offline_cache, .fallback, .api, .error_fallback_cache, .error_fallback_hardcoded]

/-- The object `getExchangeRates` resolves with. -/
structure ApiResult where
  success : Bool
  rates : RateTable
  timestamp : StoredVal
  source : Source
  warning : Option String
deriving DecidableEq

/-- The service-owned mutable state that `getExchangeRates` touches. -/
structure SvcState where
  store : Store
  lastRequestTime : ℕ
  metrics : Metrics
deriving DecidableEq

/-- The environment of one `getExchangeRates` invocation: arguments,
connectivity, whether storage reads succeed, the wall clock, the elapsed
latency recorded into metrics, and the network oracle. -/
structure Env where
  baseCurrency : String
  forceRefresh : Bool
  isOnline : Bool
  readOk : Bool
  now : ℕ
  elapsed : ℚ
  oracle : ℕ → ℕ → AttemptResult

/-- The online branch of `getExchangeRates`: rate-limit wait (pure delay,
no state effect), `fetchWithRetry`, then `lastRequestTime` update, cache
write, success metric, and the `source: 'api'` result.  A pipeline
failure propagates to the enclosing `catch`. -/
def getExchangeRatesFetch (st : SvcState) (e : Env) :
    Except JsError (ApiResult × SvcState) :=
  match (fetchWithRetry e.oracle e.baseCurrency 3).1 with
  | .error err => .error err
  | .ok f =>
    let st1 : SvcState := { st with lastRequestTime := e.now }
    let st2 : SvcState := { st1 with store := cacheRates st1.store e.now e.baseCurrency f.rates }
    let st3 : SvcState := { st2 with metrics := recordApiSuccess st2.metrics e.elapsed }
    .ok (⟨true, f.rates, .time e.now, .api, none⟩, st3)

/-- The `try` body of `getExchangeRates`: fresh-cache fast path, offline
branch (stale cache, then hardcoded fallback), else the fetch path. -/
def getExchangeRatesTry (st : SvcState) (e : Env) :
    Except JsError (ApiResult × SvcState) :=
  match
    (if e.forceRefresh = false then
        getCachedRates st.store e.readOk e.now e.baseCurrency false
      else none) with
  | some c =>
    .ok (⟨true, c.rates, c.timestamp, .cache, none⟩,
         { st with metrics := recordCacheHit st.metrics })
  | none =>
    if e.isOnline = false then
      match getCachedRates st.store e.readOk e.now e.baseCurrency true with
      | some c =>
        .ok (⟨true, c.rates, c.timestamp, .offline_cache, some "Last Refreshed Rate"⟩, st)
      | none =>
        .ok (⟨true, fallbackRates, .time e.now, .fallback, some "Last Refreshed Rate"⟩, st)
    else
      getExchangeRatesFetch st e

/-- The `catch` handler of `getExchangeRates`: error metric, stale-cache
fallback, then the hardcoded table. -/
def getExchangeRatesCatch (st : SvcState) (e : Env) : ApiResult × SvcState :=
  let st1 : SvcState := { st with metrics := recordApiError st.metrics }
  match getCachedRates st.store e.readOk e.now e.baseCurrency true with
  | some c =>
    (⟨true, c.rates, c.timestamp, .error_fallback_cache, some "Last Refreshed Rate"⟩, st1)
  | none =>
    (⟨true, fallbackRates, .time e.now, .error_fallback_hardcoded, some "Last Refreshed Rate"⟩, st1)

/-- `getExchangeRates(baseCurrency, forceRefresh)` as a whole: the `try`
body with its `catch`.  An `Except.error` value here would model an
exception escaping to the caller. -/
def getExchangeRates (st : SvcState) (e : Env) :
    Except JsError (ApiResult × SvcState) :=
  match getExchangeRatesTry st e with
  | .ok r => .ok r
  | .error _ => .ok (getExchangeRatesCatch st e)

/-- `sleepOnlyAfterRoundEnd numUrls tr last` checks the placement the
claim asserts for backoff sleeps: every sleep event must come after the
attempt on the *last* endpoint of a round (i.e. only between consecutive
rounds, never between two endpoint attempts of the same round).
`last` is the most recent attempt seen so far. -/
def sleepOnlyAfterRoundEnd (numUrls : ℕ) : List FetchEv → Option (ℕ × ℕ) → Bool
  | [], _ => true
  | .attemptAt r u :: rest, _ => sleepOnlyAfterRoundEnd numUrls rest (some (r, u))
  | .sleep _ :: rest, last =>
    (match last with
      | some ru => decide (ru.2 = numUrls - 1)
      | none => false)
      && sleepOnlyAfterRoundEnd numUrls rest last

/-- Admissible adjacency of two consecutive trace events under the
backoff discipline the code implements.  An attempt of a non-final round
may only be followed by its backoff sleep of `1000 × (round + 1)` ms
(so a *failed* non-final-round attempt, which is always followed by
something, is necessarily followed by that sleep); an attempt directly
followed by another attempt is only admissible in the final round; a
sleep is followed by an attempt, never by another sleep. -/
def backoffStep (maxRetries : ℕ) : FetchEv → FetchEv → Bool
  | .attemptAt r _, .sleep ms =>
    decide (r < maxRetries - 1) && decide (ms = 1000 * (r + 1))
  | .attemptAt r _, .attemptAt _ _ => decide (¬ r < maxRetries - 1)
  | .sleep _, .attemptAt _ _ => true
  | .sleep _, .sleep _ => false

/-- All consecutive pairs of a trace satisfy `f` (a Boolean chain). -/
def pairwiseOk (f : FetchEv → FetchEv → Bool) : List FetchEv → Bool
  | [] => true
  | [_] => true
  | a :: b :: rest => f a b && pairwiseOk f (b :: rest)

/-- The last event of a trace. -/
def lastEv : List FetchEv → Option FetchEv
  | [] => none
  | [a] => some a
  | _ :: rest => lastEv rest

/-- Number of attempt events in a trace. -/
def attemptCount (tr : List FetchEv) : ℕ :=
  (tr.filter (fun ev => match ev with | .attemptAt _ _ => true | _ => false)).length

/-- The outcomes of the six attempts of one `fetchWithRetry` invocation,
in the order the pipeline tries them. -/
def attemptSeq (o : ℕ → ℕ → ExchangeRateAPIService.AttemptResult) (b : String) :
    List (Except ExchangeRateAPIService.JsError ExchangeRateAPIService.Fetched) :=
  [ExchangeRateAPIService.attemptEval (o 0 0) b, ExchangeRateAPIService.attemptEval (o 0 1) b,
   ExchangeRateAPIService.attemptEval (o 1 0) b, ExchangeRateAPIService.attemptEval (o 1 1) b,
   ExchangeRateAPIService.attemptEval (o 2 0) b, ExchangeRateAPIService.attemptEval (o 2 1) b]

/-- The first successful outcome of the sequence, if any. -/
def firstSuccess (outs : List (Except ExchangeRateAPIService.JsError ExchangeRateAPIService.Fetched)) :
    Option ExchangeRateAPIService.Fetched :=
  outs.findSome? (fun x => match x with | .ok f => some f | .error _ => none)

/-- Wall-clock start times of the attempts of a trace: attempt number `k`
takes `d k` ms before it fails/returns, a sleep advances the clock by its
duration.  `t` is the current clock. -/
def attemptStartTimes (d : ℕ → ℕ) : List FetchEv → ℕ → ℕ → List ℕ
  | [], _, _ => []
  | .attemptAt _ _ :: rest, t, k => t :: attemptStartTimes d rest (t + d k) (k + 1)
  | .sleep ms :: rest, t, k => attemptStartTimes d rest (t + ms) k

/-- Consecutive elements at least `gap` apart — the spacing the rate
limiter is claimed to enforce between network-call start times. -/
def SpacedBy (gap : ℕ) (ts : List ℕ) : Prop :=
  List.Chain' (fun a b => a + gap ≤ b) ts

instance (gap : ℕ) (ts : List ℕ) : Decidable (SpacedBy gap ts) :=
  inferInstanceAs (Decidable (List.Chain' (fun a b => a + gap ≤ b) ts))

end ExchangeRateAPIService

namespace CurrencyConverter

open ExchangeRateAPIService in
/-- The state held by `CurrencyConverter` (the fields the constructor
initializes plus the `source` field later merges add). -/
structure EngineState where
  loading : Bool
  error : Option String
  rates : RateTable
  lastUpdate : Option StoredVal
  isOffline : Bool
  source : Option Source
deriving DecidableEq

open ExchangeRateAPIService in
/-- A partial state passed to `setState`: present fields overwrite, the
JS spread `{ ...state, ...newState }`. -/
structure StatePatch where
  loading : Option Bool := none
  error : Option (Option String) := none
  rates : Option RateTable := none
  lastUpdate : Option (Option StoredVal) := none
  isOffline : Option Bool := none
  source : Option (Option Source) := none

/-- `{ ...this.state, ...newState }`. -/
def mergeState (s : EngineState) (p : StatePatch) : EngineState :=
  ⟨p.loading.getD s.loading, p.error.getD s.error, p.rates.getD s.rates,
   p.lastUpdate.getD s.lastUpdate, p.isOffline.getD s.isOffline, p.source.getD s.source⟩

/-- `this.subscribers.forEach(callback => callback(this.state))`, over the
array captured when `forEach` starts.  Subscribers are identified by ids;
`effects c` is the list of callbacks that callback `c` unsubscribes while
it runs.  An unsubscribe replaces the subscriber array by a filtered copy
(`this.subscribers = this.subscribers.filter(sub => sub !== callback)`),
so it never mutates the array `forEach` iterates.  Returns the call log
(who was invoked, with which state) and the final subscriber array. -/
def notifyAll (effects : ℕ → List ℕ) :
    List ℕ → EngineState → List ℕ → List (ℕ × EngineState) × List ℕ
  | [], _, subs => ([], subs)
  | c :: rest, st, subs =>
    let subs1 := (effects c).foldl (fun l u => l.filter (fun x => x ≠ u)) subs
    let next := notifyAll effects rest st subs1
    ((c, st) :: next.1, next.2)

/-- `setState(newState)`: merge, then synchronously notify every
subscriber present at invocation time. -/
def setState (effects : ℕ → List ℕ) (subs : List ℕ) (st : EngineState)
    (p : StatePatch) : EngineState × List (ℕ × EngineState) × List ℕ :=
  let st1 := mergeState st p
  let r := notifyAll effects subs st1 subs
  (st1, r.1, r.2)

/-- The object `convertCurrency` returns (success paths have
`error: null`). -/
structure ConvertResult where
  convertedAmount : ℚ
  exchangeRate : ℚ
  error : Option String
deriving DecidableEq

/-- JS `x || 1` on a rate lookup: `undefined` and `0` fall back to `1`. -/
def jsOrOne (o : Option ℚ) : ℚ :=
  match o with
  | some r => if r = 0 then 1 else r
  | none => 1

/-- `convertCurrency(amount, fromCurrency, toCurrency)`: non-positive
amounts are a no-op; an empty rate table triggers a refetch whose
resulting table is the `fetched` parameter; then the three cases keyed on
the hardcoded base `'USD'`. -/
def convertCurrency (amount : ℚ) (fromC toC : String)
    (stateRates fetched : RateTable) : ConvertResult :=
  if amount ≤ 0 then ⟨0, 0, none⟩
  else
    let rates := if stateRates.isEmpty then fetched else stateRates
    if fromC = "USD" then
      let r := jsOrOne (lookupRate rates toC)
      ⟨amount * r, r, none⟩
    else if toC = "USD" then
      let r := 1 / jsOrOne (lookupRate rates fromC)
      ⟨amount * r, r, none⟩
    else
      let fromRate := jsOrOne (lookupRate rates fromC)
      let toRate := jsOrOne (lookupRate rates toC)
      let r := toRate / fromRate
      ⟨amount * r, r, none⟩

end CurrencyConverter

namespace ExchangeRateAPIService

/-- `clearCache` at service level: the method touches nothing besides
`localStorage`. -/
def clearCacheSvc (st : SvcState) : SvcState := { st with store := clearCache st.store }

/-- Oracle under which every network attempt fails at transport level. -/
def allFailOracle : ℕ → ℕ → AttemptResult := fun _ _ => .transportFail

/-- Oracle that succeeds exactly at round 1, endpoint 0. -/
def demoSuccessOracle : ℕ → ℕ → AttemptResult := fun r u =>
  if r = 1 && u = 0 then .httpResponse true 200 (some [("EUR", 2)]) none none
  else .transportFail

/-- Whether a pipeline attempt outcome is a failure. -/
def isErrB (x : Except JsError Fetched) : Bool :=
  match x with
  | .error _ => true
  | .ok _ => false

/-- Concrete invocation environment: online, forced refresh, storage
reads fine, every fetch fails. -/
def demoEnvFail : Env := ⟨"USD", true, true, true, 5, 0, allFailOracle⟩

/-- A demo store holding one well-formed cache entry for USD written at
time 0. -/
def demoStore : Store :=
  [(cacheKeyFor "USD", .table [("EUR", 2)]), (tsKeyFor "USD", .time 0)]

end ExchangeRateAPIService

section SmokeChecks
open ExchangeRateAPIService

example :
    getCachedRates (cacheRates [] 0 "USD" [("EUR", 2)]) true 1000 "USD" false =
      some ⟨[("EUR", 2)], .time 0, some 1000⟩ := by decide

example :
    getCachedRates (cacheRates [] 0 "USD" [("EUR", 2)]) true 700000 "USD" false = none := by
  decide

example :
    getCachedRates (cacheRates [] 0 "USD" [("EUR", 2)]) true 650000 "USD" true =
      some ⟨[("EUR", 2)], .time 0, some 650000⟩ := by decide

-- sweep at put time removes an entry older than 2×TTL
example :
    getCachedRates (cacheRates (cacheRates [] 0 "EUR" [("USD", 3)]) 700000 "USD" [("EUR", 2)])
      true 700000 "EUR" true = none := by decide

example : clearCache [("foo", .raw "x"), ("exchangeRates_USD", .table [])] =
    [("foo", .raw "x")] := by decide

example :
    (fetchWithRetry (fun _ _ => .transportFail) "USD" 3).2 =
      [.attemptAt 0 0, .sleep 1000, .attemptAt 0 1, .sleep 1000,
       .attemptAt 1 0, .sleep 2000, .attemptAt 1 1, .sleep 2000,
       .attemptAt 2 0, .attemptAt 2 1] := by decide

example :
    (fetchWithRetry (fun _ _ => .transportFail) "USD" 3).1 = .error .transport := by rfl

example :
    (fetchWithRetry (fun r u => if r = 1 && u = 0
        then .httpResponse true 200 (some [("EUR", 2)]) none none
        else .transportFail) "USD" 3).2 =
      [.attemptAt 0 0, .sleep 1000, .attemptAt 0 1, .sleep 1000, .attemptAt 1 0] := by
  decide

example :
    attemptStartTimes (fun _ => 0)
      (fetchWithRetry (fun _ _ => .transportFail) "USD" 3).2 0 0 =
      [0, 1000, 2000, 4000, 6000, 6000] := by decide

example :
    sleepOnlyAfterRoundEnd 2 (fetchWithRetry (fun _ _ => .transportFail) "USD" 3).2 none
      = false := by decide

example :
    CurrencyConverter.convertCurrency 100 "EUR" "GBP" [("EUR", 2), ("GBP", 3)] [] =
      ⟨150, 3 / 2, none⟩ := by
  simp [CurrencyConverter.convertCurrency, lookupRate, CurrencyConverter.jsOrOne]
  norm_num

example : (getMetrics Metrics.init).2 = .nan := by decide

example : (getMetrics (recordApiSuccess (recordCacheHit Metrics.init) 10)).2 = .num 50 := by
  norm_num [getMetrics, recordApiSuccess, recordCacheHit, Metrics.init, jsDivNat, jsMul100]

end SmokeChecks

namespace StoreLemmas

theorem getItem_nil (k : String) : getItem k [] = none := rfl

theorem getItem_cons (k : String) (kv : String × StoredVal) (s : Store) :
    getItem k (kv :: s) = if kv.1 = k then some kv.2 else getItem k s := by
  by_cases h : kv.1 = k <;> simp [getItem, List.find?, h]

theorem getItem_removeItem_self (k : String) (s : Store) :
    getItem k (removeItem k s) = none := by
  induction s with
  | nil => rfl
  | cons kv s ih =>
    simp only [removeItem, List.filter_cons] at ih ⊢
    by_cases h : kv.1 = k
    · simpa [h] using ih
    · simpa [h, getItem_cons] using ih

theorem getItem_removeItem_ne (k k' : String) (s : Store) (h : k ≠ k') :
    getItem k (removeItem k' s) = getItem k s := by
  induction s with
  | nil => rfl
  | cons kv s ih =>
    simp only [removeItem, List.filter_cons] at ih ⊢
    by_cases h1 : kv.1 = k'
    · have h2 : kv.1 ≠ k := by rw [h1]; exact fun hh => h hh.symm
      have h3 : k' ≠ k := fun hh => h hh.symm
      simpa [h1, getItem_cons, h2, h3] using ih
    · by_cases h2 : kv.1 = k
      · simp [h1, h2, h, getItem_cons]
      · simpa [h1, h2, getItem_cons] using ih

theorem getItem_mem_keys {k : String} {v : StoredVal} {s : Store}
    (h : getItem k s = some v) : k ∈ storeKeys s := by
  induction s with
  | nil => simp [getItem] at h
  | cons kv s ih =>
    rw [getItem_cons] at h
    by_cases h1 : kv.1 = k
    · simp [storeKeys, h1]
    · simp only [h1, if_false] at h
      simp [storeKeys] at ih ⊢
      exact Or.inr (ih h)

theorem getItem_eq_none_of_not_mem {k : String} {s : Store}
    (h : k ∉ storeKeys s) : getItem k s = none := by
  induction s with
  | nil => rfl
  | cons kv s ih =>
    simp only [storeKeys, List.map_cons, List.mem_cons] at h
    push_neg at h
    rw [getItem_cons, if_neg (fun hh => h.1 hh.symm)]
    exact ih h.2

theorem getItem_map_replace_ne (k k' : String) (v : StoredVal) (s : Store) (h : k ≠ k') :
    getItem k (s.map (fun kv => if kv.1 = k' then (k', v) else kv)) = getItem k s := by
  induction s with
  | nil => rfl
  | cons kv s ih =>
    by_cases h1 : kv.1 = k'
    · have h2 : kv.1 ≠ k := by rw [h1]; exact fun hh => h hh.symm
      have h3 : k' ≠ k := fun hh => h hh.symm
      simp [getItem_cons, h1, h2, h3, ih]
    · by_cases h2 : kv.1 = k <;> simp [getItem_cons, h1, h2, h, ih]

theorem getItem_map_replace_self (k' : String) (v : StoredVal) (s : Store)
    (hmem : s.any (fun kv => kv.1 = k') = true) :
    getItem k' (s.map (fun kv => if kv.1 = k' then (k', v) else kv)) = some v := by
  induction s with
  | nil => simp at hmem
  | cons kv s ih =>
    by_cases h1 : kv.1 = k'
    · simp [getItem_cons, h1]
    · simp only [List.any_cons, h1, decide_False, Bool.false_or] at hmem
      simp [getItem_cons, h1, ih hmem]

theorem getItem_append (k : String) (s t : Store) :
    getItem k (s ++ t) = ((getItem k s).or (getItem k t)) := by
  induction s with
  | nil => simp [getItem]
  | cons kv s ih =>
    by_cases h : kv.1 = k <;> simp [getItem_cons, h, ih]

theorem getItem_setItem_self (k : String) (v : StoredVal) (s : Store) :
    getItem k (setItem k v s) = some v := by
  unfold setItem
  by_cases hmem : s.any (fun kv => kv.1 = k) = true
  · rw [if_pos hmem]
    exact getItem_map_replace_self k v s hmem
  · rw [if_neg hmem, getItem_append]
    have : getItem k s = none := by
      apply getItem_eq_none_of_not_mem
      intro hk
      apply hmem
      simp only [storeKeys, List.mem_map] at hk
      obtain ⟨kv, hkv, hk⟩ := hk
      simp only [List.any_eq_true, decide_eq_true_eq]
      exact ⟨kv, hkv, hk⟩
    simp [this, getItem_cons]

theorem getItem_setItem_ne (k k' : String) (v : StoredVal) (s : Store) (h : k ≠ k') :
    getItem k (setItem k' v s) = getItem k s := by
  unfold setItem
  by_cases hmem : s.any (fun kv => kv.1 = k') = true
  · rw [if_pos hmem]
    exact getItem_map_replace_ne k k' v s h
  · rw [if_neg hmem, getItem_append]
    have hne : k' ≠ k := fun hh => h hh.symm
    cases hg : getItem k s <;> simp [getItem_cons, hne, getItem_nil]

end StoreLemmas

namespace ClearCacheProof
open StoreLemmas ExchangeRateAPIService

/-- The `clearCache` removal condition. -/
def clearCond (key : String) : Bool :=
  strStartsWith key cacheKey || strStartsWith key cacheTimestampKey

theorem foldl_remove_getItem (ks : List String) (s : Store) (k : String) :
    getItem k (ks.foldl
        (fun s key => if clearCond key then removeItem key s else s) s) =
      if k ∈ ks ∧ clearCond k then none else getItem k s := by
  induction ks generalizing s with
  | nil => simp
  | cons k0 ks ih =>
    simp only [List.foldl_cons]
    have notin : ¬ (k ∈ ks ∧ clearCond k = true) →
        k ≠ k0 → ¬ (k ∈ k0 :: ks ∧ clearCond k = true) := by
      rintro hk he ⟨hm, hcc⟩
      rcases List.mem_cons.mp hm with h | h
      · exact he h
      · exact hk ⟨h, hcc⟩
    by_cases hc0 : clearCond k0 = true
    · rw [if_pos hc0, ih]
      by_cases hk : k ∈ ks ∧ clearCond k = true
      · rw [if_pos hk, if_pos ⟨List.mem_cons_of_mem _ hk.1, hk.2⟩]
      · rw [if_neg hk]
        by_cases he : k = k0
        · subst he
          rw [getItem_removeItem_self, if_pos ⟨List.mem_cons_self k ks, hc0⟩]
        · rw [getItem_removeItem_ne k k0 s he, if_neg (notin hk he)]
    · rw [if_neg hc0, ih]
      by_cases hk : k ∈ ks ∧ clearCond k = true
      · rw [if_pos hk, if_pos ⟨List.mem_cons_of_mem _ hk.1, hk.2⟩]
      · rw [if_neg hk, if_neg]
        rintro ⟨hm, hcc⟩
        rcases List.mem_cons.mp hm with h | h
        · subst h; exact hc0 hcc
        · exact hk ⟨h, hcc⟩

end ClearCacheProof

namespace KeyLemmas
open ExchangeRateAPIService

theorem cacheKeyFor_data (b : String) :
    (cacheKeyFor b).data = "exchangeRates_".data ++ b.data := by
  have h : (cacheKey ++ "_" : String) = "exchangeRates_" := by decide
  unfold cacheKeyFor
  rw [h, String.data_append]

theorem tsKeyFor_data (b : String) :
    (tsKeyFor b).data = "exchangeRatesTimestamp_".data ++ b.data := by
  have h : (cacheTimestampKey ++ "_" : String) = "exchangeRatesTimestamp_" := by decide
  unfold tsKeyFor
  rw [h, String.data_append]

theorem cacheKeyFor_inj {a b : String} (h : cacheKeyFor a = cacheKeyFor b) : a = b := by
  have hd := congrArg String.data h
  rw [cacheKeyFor_data, cacheKeyFor_data] at hd
  exact String.ext (List.append_cancel_left hd)

theorem tsKeyFor_inj {a b : String} (h : tsKeyFor a = tsKeyFor b) : a = b := by
  have hd := congrArg String.data h
  rw [tsKeyFor_data, tsKeyFor_data] at hd
  exact String.ext (List.append_cancel_left hd)

theorem cacheKeyFor_ne_tsKeyFor (a b : String) : cacheKeyFor a ≠ tsKeyFor b := by
  intro h
  have hd := congrArg String.data h
  rw [cacheKeyFor_data, tsKeyFor_data] at hd
  have h13 : ("exchangeRates_".data ++ a.data)[13]? =
      ("exchangeRatesTimestamp_".data ++ b.data)[13]? := by rw [hd]
  rw [List.getElem?_append_left (by decide), List.getElem?_append_left (by decide)] at h13
  simp at h13

theorem strStartsWith_tsKeyFor (b : String) :
    strStartsWith (tsKeyFor b) cacheTimestampKey = true := by
  unfold strStartsWith
  rw [tsKeyFor_data]
  have h : ("exchangeRatesTimestamp_".data : List Char) =
      cacheTimestampKey.data ++ "_".data := by decide
  rw [h, List.append_assoc]
  simp [ List.isPrefixOf_iff_prefix, List.prefix_append]

theorem strStartsWith_cacheKeyFor_ts (b : String) :
    strStartsWith (cacheKeyFor b) cacheTimestampKey = false := by
  unfold strStartsWith
  rw [cacheKeyFor_data]
  by_contra hcon
  simp only [Bool.not_eq_false, List.isPrefixOf_iff_prefix] at hcon
  obtain ⟨t, ht⟩ := hcon
  have h13 : (cacheTimestampKey.data ++ t)[13]? =
      ("exchangeRates_".data ++ b.data)[13]? := by rw [ht]
  rw [List.getElem?_append_left (by decide), List.getElem?_append_left (by decide)] at h13
  exact absurd h13 (by decide)

theorem replacePrefixStr_tsKeyFor (b : String) :
    replacePrefixStr (tsKeyFor b) cacheTimestampKey cacheKey = cacheKeyFor b := by
  unfold replacePrefixStr
  rw [strStartsWith_tsKeyFor, if_pos rfl]
  have hdrop : (tsKeyFor b).data.drop cacheTimestampKey.data.length = ("_" ++ b).data := by
    rw [tsKeyFor_data, String.data_append]
    have h : ("exchangeRatesTimestamp_".data : List Char) =
        cacheTimestampKey.data ++ "_".data := by decide
    rw [h, List.append_assoc]
    exact List.drop_left _ _
  rw [hdrop]
  have hmk : (⟨("_" ++ b).data⟩ : String) = "_" ++ b := by
    cases ("_" ++ b : String); rfl
  rw [hmk]
  apply String.ext
  rw [cacheKeyFor_data, String.data_append, String.data_append]
  have h2 : ("exchangeRates_".data : List Char) = cacheKey.data ++ "_".data := by decide
  rw [h2, List.append_assoc]

end KeyLemmas

namespace CleanProof
open ExchangeRateAPIService StoreLemmas KeyLemmas

theorem getItem_removeItem_none (k a : String) (s : Store) (h : getItem k s = none) :
    getItem k (removeItem a s) = none := by
  by_cases he : k = a
  · subst he; exact getItem_removeItem_self k s
  · rw [getItem_removeItem_ne k a s he]; exact h

theorem cleanStep_not_ts (now : ℕ) (s : Store) (key : String)
    (hp : ¬ strStartsWith key cacheTimestampKey = true) :
    cleanStep now s key = s := by
  unfold cleanStep
  rw [if_neg hp]

theorem cleanStep_getItem_none (now : ℕ) (s : Store) (key k : String)
    (h : getItem k s = none) : getItem k (cleanStep now s key) = none := by
  unfold cleanStep
  by_cases hp : strStartsWith key cacheTimestampKey = true
  · rw [if_pos hp]
    cases hg : getItem key s with
    | none => exact h
    | some v =>
      cases v with
      | table t => simp only []; exact h
      | raw str => simp only []; exact h
      | time t =>
        by_cases hr : ((now : ℤ) - (t : ℤ)) > 2 * (cacheDuration : ℤ)
        · simp only [hr, decide_True, if_true]
          exact getItem_removeItem_none _ _ _ (getItem_removeItem_none _ _ _ h)
        · simp only [hr, decide_False, Bool.false_eq_true, if_false]
          exact h
  · rw [if_neg hp]; exact h

theorem cleanStep_preserve (now : ℕ) (s : Store) (key k : String)
    (h1 : k ≠ key) (h2 : k ≠ replacePrefixStr key cacheTimestampKey cacheKey) :
    getItem k (cleanStep now s key) = getItem k s := by
  unfold cleanStep
  by_cases hp : strStartsWith key cacheTimestampKey = true
  · rw [if_pos hp]
    cases hg : getItem key s with
    | none => rfl
    | some v =>
      cases v with
      | table t => rfl
      | raw str => rfl
      | time t =>
        by_cases hr : ((now : ℤ) - (t : ℤ)) > 2 * (cacheDuration : ℤ)
        · simp only [hr, decide_True, if_true]
          rw [getItem_removeItem_ne _ _ _ h2, getItem_removeItem_ne _ _ _ h1]
        · simp only [hr, decide_False, Bool.false_eq_true, if_false]
  · rw [if_neg hp]

theorem cleanStep_keep_self (now t : ℕ) (s : Store) (b : String)
    (hts : getItem (tsKeyFor b) s = some (.time t))
    (hage : ¬ ((now : ℤ) - (t : ℤ) > 2 * (cacheDuration : ℤ))) :
    cleanStep now s (tsKeyFor b) = s := by
  unfold cleanStep
  rw [if_pos (strStartsWith_tsKeyFor b), hts]
  simp only [hage, decide_False, Bool.false_eq_true, if_false]

theorem cleanStep_drop_self (now t : ℕ) (s : Store) (b : String)
    (hts : getItem (tsKeyFor b) s = some (.time t))
    (hage : (now : ℤ) - (t : ℤ) > 2 * (cacheDuration : ℤ)) :
    cleanStep now s (tsKeyFor b) =
      removeItem (cacheKeyFor b) (removeItem (tsKeyFor b) s) := by
  unfold cleanStep
  rw [if_pos (strStartsWith_tsKeyFor b), hts]
  simp only [hage, decide_True, if_true, replacePrefixStr_tsKeyFor]

theorem cleanFold_none (now : ℕ) (ks : List String) (s : Store) (k : String)
    (h : getItem k s = none) : getItem k (ks.foldl (cleanStep now) s) = none := by
  induction ks generalizing s with
  | nil => exact h
  | cons K ks ih =>
    simp only [List.foldl_cons]
    exact ih _ (cleanStep_getItem_none now s K k h)

theorem cleanFold_keep (now : ℕ) (ks : List String) (s : Store) (b : String)
    (t : ℕ) (v : StoredVal)
    (hshape : ∀ K ∈ ks, strStartsWith K cacheTimestampKey = true → ∃ b', K = tsKeyFor b')
    (hts : getItem (tsKeyFor b) s = some (.time t))
    (hdata : getItem (cacheKeyFor b) s = some v)
    (hage : ¬ ((now : ℤ) - (t : ℤ) > 2 * (cacheDuration : ℤ))) :
    getItem (tsKeyFor b) (ks.foldl (cleanStep now) s) = some (.time t) ∧
    getItem (cacheKeyFor b) (ks.foldl (cleanStep now) s) = some v := by
  induction ks generalizing s with
  | nil => exact ⟨hts, hdata⟩
  | cons K ks ih =>
    simp only [List.foldl_cons]
    have hshape' : ∀ K ∈ ks, strStartsWith K cacheTimestampKey = true → ∃ b', K = tsKeyFor b' :=
      fun K hK => hshape K (List.mem_cons_of_mem _ hK)
    by_cases hp : strStartsWith K cacheTimestampKey = true
    · obtain ⟨b', rfl⟩ := hshape K (List.mem_cons_self K ks) hp
      by_cases hb : b' = b
      · subst hb
        rw [cleanStep_keep_self now t s b' hts hage]
        exact ih s hshape' hts hdata
      · have e1 : tsKeyFor b ≠ tsKeyFor b' := fun hh => hb (tsKeyFor_inj hh).symm
        have e2 : tsKeyFor b ≠ replacePrefixStr (tsKeyFor b') cacheTimestampKey cacheKey := by
          rw [replacePrefixStr_tsKeyFor]
          exact fun hh => cacheKeyFor_ne_tsKeyFor b' b hh.symm
        have e3 : cacheKeyFor b ≠ tsKeyFor b' := cacheKeyFor_ne_tsKeyFor b b'
        have e4 : cacheKeyFor b ≠ replacePrefixStr (tsKeyFor b') cacheTimestampKey cacheKey := by
          rw [replacePrefixStr_tsKeyFor]
          exact fun hh => hb (cacheKeyFor_inj hh).symm
        refine ih _ hshape' ?_ ?_
        · rw [cleanStep_preserve now s _ _ e1 e2]; exact hts
        · rw [cleanStep_preserve now s _ _ e3 e4]; exact hdata
    · rw [cleanStep_not_ts now s K hp]
      exact ih s hshape' hts hdata

theorem cleanFold_drop (now : ℕ) (ks : List String) (s : Store) (b : String) (t : ℕ)
    (hshape : ∀ K ∈ ks, strStartsWith K cacheTimestampKey = true → ∃ b', K = tsKeyFor b')
    (hts : getItem (tsKeyFor b) s = some (.time t))
    (hage : (now : ℤ) - (t : ℤ) > 2 * (cacheDuration : ℤ))
    (hmem : tsKeyFor b ∈ ks) :
    getItem (tsKeyFor b) (ks.foldl (cleanStep now) s) = none ∧
    getItem (cacheKeyFor b) (ks.foldl (cleanStep now) s) = none := by
  induction ks generalizing s with
  | nil => simp at hmem
  | cons K ks ih =>
    simp only [List.foldl_cons]
    have hshape' : ∀ K ∈ ks, strStartsWith K cacheTimestampKey = true → ∃ b', K = tsKeyFor b' :=
      fun K hK => hshape K (List.mem_cons_of_mem _ hK)
    by_cases he : K = tsKeyFor b
    · subst he
      rw [cleanStep_drop_self now t s b hts hage]
      constructor
      · apply cleanFold_none
        rw [getItem_removeItem_ne _ _ _ (fun hh => cacheKeyFor_ne_tsKeyFor b b hh.symm)]
        exact getItem_removeItem_self _ _
      · apply cleanFold_none
        exact getItem_removeItem_self _ _
    · have hmem' : tsKeyFor b ∈ ks := by
        rcases List.mem_cons.mp hmem with h | h
        · exact absurd h.symm he
        · exact h
      have hts' : getItem (tsKeyFor b) (cleanStep now s K) = some (.time t) := by
        by_cases hp : strStartsWith K cacheTimestampKey = true
        · obtain ⟨b', rfl⟩ := hshape K (List.mem_cons_self K ks) hp
          have e1 : tsKeyFor b ≠ tsKeyFor b' := fun hh => he hh.symm
          have e2 : tsKeyFor b ≠ replacePrefixStr (tsKeyFor b') cacheTimestampKey cacheKey := by
            rw [replacePrefixStr_tsKeyFor]
            exact fun hh => cacheKeyFor_ne_tsKeyFor b' b hh.symm
          rw [cleanStep_preserve now s _ _ e1 e2]; exact hts
        · rw [cleanStep_not_ts now s K hp]; exact hts
      exact ih _ hshape' hts' hmem'

theorem mem_storeKeys_setItem {K k : String} {v : StoredVal} {s : Store}
    (h : K ∈ storeKeys (setItem k v s)) : K ∈ storeKeys s ∨ K = k := by
  unfold setItem at h
  by_cases hmem : s.any (fun kv => kv.1 = k) = true
  · rw [if_pos hmem] at h
    simp only [storeKeys, List.map_map, List.mem_map, Function.comp] at h
    obtain ⟨kv, hkv, hK⟩ := h
    by_cases hc : kv.1 = k
    · rw [if_pos hc] at hK
      right; exact hK.symm
    · rw [if_neg hc] at hK
      left
      simp only [storeKeys, List.mem_map]
      exact ⟨kv, hkv, hK⟩
  · rw [if_neg hmem] at h
    simp only [storeKeys, List.map_append, List.mem_append, List.map_cons, List.map_nil,
      List.mem_singleton] at h
    rcases h with h | h
    · left; exact h
    · right; simpa using h

end CleanProof


namespace ConverterProofs
open CurrencyConverter

theorem notifyAll_log (effects : ℕ → List ℕ) (captured : List ℕ) (st : EngineState) :
    ∀ subs, (notifyAll effects captured st subs).1 =
      captured.map (fun c => (c, st)) := by
  induction captured with
  | nil => intro subs; rfl
  | cons c rest ih =>
    intro subs
    simp only [notifyAll, List.map_cons, List.cons.injEq, true_and]
    exact ih _

theorem jsOrOne_of_pos (rates : RateTable) (hpos : ∀ kv ∈ rates, 0 < kv.2) (c : String) :
    jsOrOne (lookupRate rates c) = (lookupRate rates c).getD 1 := by
  unfold lookupRate jsOrOne
  cases hf : rates.find? (fun kv => kv.1 = c) with
  | none => simp
  | some kv =>
    have hmem := List.mem_of_find?_eq_some hf
    have hp := hpos kv hmem
    simp [ne_of_gt hp]

end ConverterProofs

/-- Claim C7: for a positive amount and a cross pair (neither currency is
the conversion base `'USD'`), with a non-empty table of positive rates,
`convertCurrency` triangulates: `effectiveRate = (rates[to] ?? 1) /
(rates[from] ?? 1)` and `convertedAmount = amount × effectiveRate`, with
a missing code contributing rate 1 rather than an error. -/
theorem claim_C7_triangulation (amount : ℚ) (fromC toC : String)
    (rates fetched : RateTable)
    (hamt : 0 < amount) (hf : fromC ≠ "USD") (ht : toC ≠ "USD")
    (hne : rates ≠ []) (hpos : ∀ kv ∈ rates, 0 < kv.2) :
    CurrencyConverter.convertCurrency amount fromC toC rates fetched =
      ⟨amount * ((lookupRate rates toC).getD 1 / (lookupRate rates fromC).getD 1),
       (lookupRate rates toC).getD 1 / (lookupRate rates fromC).getD 1, none⟩ := by
  unfold CurrencyConverter.convertCurrency
  rw [if_neg (not_le.mpr hamt)]
  have hempty : rates.isEmpty = false := by
    cases rates with
    | nil => exact absurd rfl hne
    | cons kv r => rfl
  simp only [hempty, Bool.false_eq_true, if_false, hf, ht,
    ConverterProofs.jsOrOne_of_pos rates hpos]

/-- Witness for C7 at the spec's own example shape (integer-valued
rationals to keep evaluation exact): 100 EUR→GBP with EUR:2, GBP:3. -/
theorem claim_C7_witness :
    CurrencyConverter.convertCurrency 100 "EUR" "GBP" [("EUR", 2), ("GBP", 3)] [] =
      ⟨150, 3 / 2, none⟩ := by
  have h := claim_C7_triangulation 100 "EUR" "GBP" [("EUR", 2), ("GBP", 3)] []
    (by norm_num) (by decide) (by decide) (by simp)
    (by
      intro kv hkv
      rcases List.mem_cons.mp hkv with rfl | h2
      · norm_num
      · rcases List.mem_cons.mp h2 with rfl | h3
        · norm_num
        · simp at h3)
  rw [h]
  simp [lookupRate]
  norm_num

/-- Claim C8: `setState` merges the patch into the state and invokes
every callback subscribed at invocation time, exactly once, in
subscription order, with the post-merge state — regardless of any
unsubscriptions the callbacks perform during the notification round. -/
theorem claim_C8_setState_notifies (effects : ℕ → List ℕ) (subs : List ℕ)
    (st : CurrencyConverter.EngineState) (p : CurrencyConverter.StatePatch) :
    (CurrencyConverter.setState effects subs st p).1 = CurrencyConverter.mergeState st p ∧
    (CurrencyConverter.setState effects subs st p).2.1 =
      subs.map (fun c => (c, CurrencyConverter.mergeState st p)) := by
  exact ⟨rfl, ConverterProofs.notifyAll_log effects subs (CurrencyConverter.mergeState st p) subs⟩

/-- Claim C9: `clearCache` removes from the store exactly the keys
starting with `exchangeRates` or `exchangeRatesTimestamp` (any other key
is untouched), and at service level it changes nothing but the store. -/
theorem claim_C9_clearCache_frame :
    (∀ (s : Store) (k : String),
      getItem k (ExchangeRateAPIService.clearCache s) =
        if strStartsWith k ExchangeRateAPIService.cacheKey
            || strStartsWith k ExchangeRateAPIService.cacheTimestampKey then none
        else getItem k s)
    ∧ ∀ st : ExchangeRateAPIService.SvcState,
        (ExchangeRateAPIService.clearCacheSvc st).lastRequestTime = st.lastRequestTime ∧
        (ExchangeRateAPIService.clearCacheSvc st).metrics = st.metrics := by
  refine ⟨?_, fun st => ⟨rfl, rfl⟩⟩
  intro s k
  have h := ClearCacheProof.foldl_remove_getItem (storeKeys s) s k
  have hcc : ExchangeRateAPIService.clearCache s =
      (storeKeys s).foldl
        (fun s key => if ClearCacheProof.clearCond key then removeItem key s else s) s := rfl
  rw [hcc, h]
  by_cases hc : ClearCacheProof.clearCond k = true
  · rw [if_pos (show (strStartsWith k ExchangeRateAPIService.cacheKey
        || strStartsWith k ExchangeRateAPIService.cacheTimestampKey) = true from hc)]
    by_cases hm : k ∈ storeKeys s
    · rw [if_pos ⟨hm, hc⟩]
    · rw [if_neg (fun hh => hm hh.1), StoreLemmas.getItem_eq_none_of_not_mem hm]
  · rw [if_neg (show ¬ (strStartsWith k ExchangeRateAPIService.cacheKey
        || strStartsWith k ExchangeRateAPIService.cacheTimestampKey) = true from hc)]
    rw [if_neg (fun hh => hc hh.2)]

/-- Claim C10: with both the network-success and cache-hit counters at
zero, `getMetrics` computes `0 / 0` unguarded and the returned
`cacheHitRate` is `NaN`; with any nonzero denominator the rate is an
ordinary number. -/
theorem claim_C10_metrics_nan (m : ExchangeRateAPIService.Metrics) :
    (m.apiCalls = 0 → m.cacheHits = 0 →
      (ExchangeRateAPIService.getMetrics m).2 = .nan)
    ∧ (m.apiCalls + m.cacheHits ≠ 0 →
      ∃ q : ℚ, (ExchangeRateAPIService.getMetrics m).2 = .num q) := by
  constructor
  · intro h1 h2
    simp [ExchangeRateAPIService.getMetrics, ExchangeRateAPIService.jsDivNat,
      ExchangeRateAPIService.jsMul100, h1, h2]
  · intro h
    refine ⟨(m.cacheHits : ℚ) / ((m.apiCalls + m.cacheHits : ℕ) : ℚ) * 100, ?_⟩
    simp [ExchangeRateAPIService.getMetrics, ExchangeRateAPIService.jsDivNat,
      ExchangeRateAPIService.jsMul100, h]

/-- Witness for C10: the fresh-constructed metrics give `NaN`; after one
cache hit the rate is a number. -/
theorem claim_C10_witness :
    (ExchangeRateAPIService.getMetrics ExchangeRateAPIService.Metrics.init).2 = .nan ∧
    ∃ q : ℚ, (ExchangeRateAPIService.getMetrics
      (ExchangeRateAPIService.recordCacheHit ExchangeRateAPIService.Metrics.init)).2 =
        .num q :=
  ⟨(claim_C10_metrics_nan ExchangeRateAPIService.Metrics.init).1 rfl rfl,
   (claim_C10_metrics_nan _).2 (by decide)⟩

/-- Claim C5: `put(B, T)` (`cacheRates`) followed by a fresh read
(`getCachedRates` with `allowStale = false`) before the 5-minute TTL has
elapsed returns exactly `T`, unchanged — for any base currency, any table
of positive rates, and any prior store owned by the cache (every
timestamp-prefixed key has the shape the cache itself writes). -/
theorem claim_C5_cache_roundtrip (store : Store) (b : String) (T : RateTable)
    (t0 t1 : ℕ)
    (hshape : ∀ K ∈ storeKeys store,
      strStartsWith K ExchangeRateAPIService.cacheTimestampKey = true →
        ∃ b', K = ExchangeRateAPIService.tsKeyFor b')
    (hpos : ∀ kv ∈ T, 0 < kv.2)
    (h01 : t0 ≤ t1)
    (httl : (t1 : ℤ) - (t0 : ℤ) < (ExchangeRateAPIService.cacheDuration : ℤ)) :
    ExchangeRateAPIService.getCachedRates
        (ExchangeRateAPIService.cacheRates store t0 b T) true t1 b false =
      some ⟨T, .time t0, some ((t1 : ℤ) - (t0 : ℤ))⟩ := by
  open ExchangeRateAPIService StoreLemmas KeyLemmas CleanProof in
  (
  set s2 : Store :=
    setItem (tsKeyFor b) (.time t0) (setItem (cacheKeyFor b) (.table T) store) with hs2
  have hts : getItem (tsKeyFor b) s2 = some (.time t0) := by
    rw [hs2]; exact getItem_setItem_self _ _ _
  have hdata : getItem (cacheKeyFor b) s2 = some (.table T) := by
    rw [hs2, getItem_setItem_ne _ _ _ _ (cacheKeyFor_ne_tsKeyFor b b)]
    exact getItem_setItem_self _ _ _
  have hshape2 : ∀ K ∈ storeKeys s2,
      strStartsWith K cacheTimestampKey = true → ∃ b', K = tsKeyFor b' := by
    intro K hK hpre
    rcases mem_storeKeys_setItem hK with hK1 | rfl
    · rcases mem_storeKeys_setItem hK1 with hK2 | rfl
      · exact hshape K hK2 hpre
      · exact absurd hpre (by rw [strStartsWith_cacheKeyFor_ts b]; simp)
    · exact ⟨b, rfl⟩
  have hage : ¬ ((t0 : ℤ) - (t0 : ℤ) > 2 * (cacheDuration : ℤ)) := by
    have : (t0 : ℤ) - (t0 : ℤ) = 0 := by ring
    rw [this]
    have : (0 : ℤ) ≤ 2 * (cacheDuration : ℤ) := by positivity
    omega
  have hkeep := cleanFold_keep t0 (storeKeys s2) s2 b t0 (.table T)
    hshape2 hts hdata hage
  have hcr : cacheRates store t0 b T = (storeKeys s2).foldl (cleanStep t0) s2 := rfl
  unfold getCachedRates getCachedRatesRaw
  rw [hcr]
  rw [hkeep.1, hkeep.2]
  simp only [Bool.true_eq_false, if_false, Bool.false_or, httl, decide_True, if_pos]
  )

/-- Witness for C5: empty prior store, table stored at time 0, fresh read
at 1 s. -/
theorem claim_C5_witness :
    ExchangeRateAPIService.getCachedRates
        (ExchangeRateAPIService.cacheRates [] 0 "USD" [("EUR", 2)]) true 1000 "USD" false =
      some ⟨[("EUR", 2)], .time 0, some 1000⟩ := by
  have h := claim_C5_cache_roundtrip [] "USD" [("EUR", 2)] 0 1000
    (by intro K hK; simp [storeKeys] at hK)
    (by
      intro kv hkv
      rcases List.mem_cons.mp hkv with rfl | h2
      · norm_num
      · simp at h2)
    (by norm_num)
    (by norm_num [ExchangeRateAPIService.cacheDuration])
  simpa using h

/-- Claim C6: for a well-formed cached entry of age `a = now - t`:
a fresh read (`allowStale = false`) returns the entry iff `a < TTL`; a
stale read (`allowStale = true`) returns it regardless of age while it is
stored; and the sweep (`cleanOldCache`, run on every put) removes exactly
the entries whose age exceeds `2 × TTL` — keeping younger ones intact —
on any store whose timestamp-prefixed keys are cache-shaped. -/
theorem claim_C6_ttl_staleness (store : Store) (b : String) (now t : ℕ)
    (T : RateTable) (v : StoredVal) :
    (getItem (ExchangeRateAPIService.cacheKeyFor b) store = some (.table T) →
     getItem (ExchangeRateAPIService.tsKeyFor b) store = some (.time t) →
     (ExchangeRateAPIService.getCachedRates store true now b false =
        (if (now : ℤ) - (t : ℤ) < (ExchangeRateAPIService.cacheDuration : ℤ) then
          some ⟨T, .time t, some ((now : ℤ) - (t : ℤ))⟩ else none))
      ∧ ExchangeRateAPIService.getCachedRates store true now b true =
          some ⟨T, .time t, some ((now : ℤ) - (t : ℤ))⟩)
    ∧ ((∀ K ∈ storeKeys store,
          strStartsWith K ExchangeRateAPIService.cacheTimestampKey = true →
            ∃ b', K = ExchangeRateAPIService.tsKeyFor b') →
        getItem (ExchangeRateAPIService.tsKeyFor b) store = some (.time t) →
        ((¬ ((now : ℤ) - (t : ℤ) > 2 * (ExchangeRateAPIService.cacheDuration : ℤ)) →
          getItem (ExchangeRateAPIService.cacheKeyFor b) store = some v →
          getItem (ExchangeRateAPIService.tsKeyFor b)
              (ExchangeRateAPIService.cleanOldCache store now) = some (.time t) ∧
          getItem (ExchangeRateAPIService.cacheKeyFor b)
              (ExchangeRateAPIService.cleanOldCache store now) = some v)
        ∧ ((now : ℤ) - (t : ℤ) > 2 * (ExchangeRateAPIService.cacheDuration : ℤ) →
          getItem (ExchangeRateAPIService.tsKeyFor b)
              (ExchangeRateAPIService.cleanOldCache store now) = none ∧
          getItem (ExchangeRateAPIService.cacheKeyFor b)
              (ExchangeRateAPIService.cleanOldCache store now) = none))) := by
  open ExchangeRateAPIService StoreLemmas CleanProof in
  (
  constructor
  · intro hdata hts
    constructor
    · unfold getCachedRates getCachedRatesRaw
      rw [hdata, hts]
      by_cases hfresh : (now : ℤ) - (t : ℤ) < (cacheDuration : ℤ)
      · simp only [hfresh, decide_True, Bool.true_eq_false, if_false, Bool.false_or,
          if_pos]
      · simp only [hfresh, decide_False, Bool.true_eq_false, if_false, Bool.false_or,
          Bool.false_eq_true]
    · unfold getCachedRates getCachedRatesRaw
      rw [hdata, hts]
      simp [Bool.true_eq_false, Bool.true_or]
  · intro hshape hts
    constructor
    · intro hage hdata
      exact cleanFold_keep now (storeKeys store) store b t v hshape hts hdata hage
    · intro hage
      exact cleanFold_drop now (storeKeys store) store b t hshape hts hage
        (getItem_mem_keys hts)
  )

/-- Witness for C6 on the two-entry demo store (entry written at time 0):
fresh read at 1 s hits, fresh read at 400 s misses, stale read at 400 s
still hits, and the sweep at 700 s (beyond `2 × TTL`) removes both keys. -/
theorem claim_C6_witness :
    ExchangeRateAPIService.getCachedRates ExchangeRateAPIService.demoStore
        true 1000 "USD" false = some ⟨[("EUR", 2)], .time 0, some 1000⟩ ∧
    ExchangeRateAPIService.getCachedRates ExchangeRateAPIService.demoStore
        true 400000 "USD" false = none ∧
    ExchangeRateAPIService.getCachedRates ExchangeRateAPIService.demoStore
        true 400000 "USD" true = some ⟨[("EUR", 2)], .time 0, some 400000⟩ ∧
    getItem (ExchangeRateAPIService.tsKeyFor "USD")
      (ExchangeRateAPIService.cleanOldCache ExchangeRateAPIService.demoStore 700000) = none ∧
    getItem (ExchangeRateAPIService.cacheKeyFor "USD")
      (ExchangeRateAPIService.cleanOldCache ExchangeRateAPIService.demoStore 700000) = none := by
  have hdata : getItem (ExchangeRateAPIService.cacheKeyFor "USD")
      ExchangeRateAPIService.demoStore = some (.table [("EUR", 2)]) := by decide
  have hts : getItem (ExchangeRateAPIService.tsKeyFor "USD")
      ExchangeRateAPIService.demoStore = some (.time 0) := by decide
  have hshape : ∀ K ∈ storeKeys ExchangeRateAPIService.demoStore,
      strStartsWith K ExchangeRateAPIService.cacheTimestampKey = true →
        ∃ b', K = ExchangeRateAPIService.tsKeyFor b' := by
    intro K hK hpre
    rcases List.mem_cons.mp hK with rfl | h2
    · exact absurd hpre (by decide)
    · rcases List.mem_cons.mp h2 with rfl | h3
      · exact ⟨"USD", rfl⟩
      · simp at h3
  refine ⟨?_, ?_, ?_, ?_⟩
  · have h := ((claim_C6_ttl_staleness ExchangeRateAPIService.demoStore "USD" 1000 0
      [("EUR", 2)] (.time 0)).1 hdata hts).1
    rw [if_pos (by norm_num [ExchangeRateAPIService.cacheDuration])] at h
    simpa using h
  · have h := ((claim_C6_ttl_staleness ExchangeRateAPIService.demoStore "USD" 400000 0
      [("EUR", 2)] (.time 0)).1 hdata hts).1
    rw [if_neg (by norm_num [ExchangeRateAPIService.cacheDuration])] at h
    simpa using h
  · have h := ((claim_C6_ttl_staleness ExchangeRateAPIService.demoStore "USD" 400000 0
      [("EUR", 2)] (.time 0)).1 hdata hts).2
    simpa using h
  · have h := ((claim_C6_ttl_staleness ExchangeRateAPIService.demoStore "USD" 700000 0
      [("EUR", 2)] (.time 0)).2 hshape hts).2
      (by norm_num [ExchangeRateAPIService.cacheDuration])
    simpa using h

namespace ResolveProofs
open ExchangeRateAPIService

theorem tryOk_shape {st : SvcState} {e : Env} {r : ApiResult × SvcState}
    (h : getExchangeRatesTry st e = .ok r) :
    r.1.success = true ∧ r.1.source ∈ sourceTags := by
  unfold getExchangeRatesTry at h
  rcases h1 : (if e.forceRefresh = false then
      getCachedRates st.store e.readOk e.now e.baseCurrency false else none) with _ | c
  · rw [h1] at h
    by_cases hon : e.isOnline = false
    · rw [if_pos hon] at h
      rcases h2 : getCachedRates st.store e.readOk e.now e.baseCurrency true with _ | c2 <;>
        rw [h2] at h
      · cases h; exact ⟨rfl, by simp [sourceTags]⟩
      · cases h; exact ⟨rfl, by simp [sourceTags]⟩
    · rw [if_neg hon] at h
      unfold getExchangeRatesFetch at h
      rcases h3 : (fetchWithRetry e.oracle e.baseCurrency 3).1 with err | f <;> rw [h3] at h
      · cases h
      · cases h; exact ⟨rfl, by simp [sourceTags]⟩
  · rw [h1] at h
    cases h; exact ⟨rfl, by simp [sourceTags]⟩

theorem catch_shape (st : SvcState) (e : Env) :
    (getExchangeRatesCatch st e).1.success = true ∧
    (getExchangeRatesCatch st e).1.source ∈ sourceTags := by
  unfold getExchangeRatesCatch
  rcases h : getCachedRates st.store e.readOk e.now e.baseCurrency true with _ | c <;>
    simp [h, sourceTags]

theorem stale_some_exists {store : Store} {now : ℕ} {b : String} {c : CacheHit}
    (h : getCachedRates store true now b true = some c) :
    ∃ T v, getItem (cacheKeyFor b) store = some (.table T) ∧
      getItem (tsKeyFor b) store = some v := by
  unfold getCachedRates getCachedRatesRaw at h
  rcases hd : getItem (cacheKeyFor b) store with _ | d <;> rw [hd] at h
  · simp at h
  · rcases ht2 : getItem (tsKeyFor b) store with _ | ts <;> rw [ht2] at h
    · simp at h
    · cases d with
      | table T => exact ⟨T, ts, rfl, rfl⟩
      | time tt => simp at h
      | raw str => simp at h

theorem exists_stale_some {store : Store} {now : ℕ} {b : String} {T : RateTable}
    {v : StoredVal}
    (hd : getItem (cacheKeyFor b) store = some (.table T))
    (hv : getItem (tsKeyFor b) store = some v) :
    ∃ c, getCachedRates store true now b true = some c := by
  unfold getCachedRates getCachedRatesRaw
  rw [hd, hv]
  cases v <;> simp

end ResolveProofs

/-- Claim C1: for every base currency and every outcome of cache reads
and network fetches (all fetches failing, reads throwing, corrupt store
contents), `getExchangeRates` never propagates an error: it always
resolves with a result carrying a rate table and a source tag, failures
appearing only as the optional warning string. -/
theorem claim_C1_never_propagates (st : ExchangeRateAPIService.SvcState)
    (e : ExchangeRateAPIService.Env) :
    ∃ res st', ExchangeRateAPIService.getExchangeRates st e = .ok (res, st') ∧
      res.success = true := by
  open ExchangeRateAPIService ResolveProofs in
  (
  unfold getExchangeRates
  rcases htry : getExchangeRatesTry st e with err | r
  · exact ⟨(getExchangeRatesCatch st e).1, (getExchangeRatesCatch st e).2,
      rfl, (catch_shape st e).1⟩
  · exact ⟨r.1, r.2, rfl, (tryOk_shape htry).1⟩
  )

/-- Claim C2: every result's source tag is one of the six defined tags
(the spec names them network/cache/offline_cache/static_fallback/
error_cache_fallback/error_static_fallback; the code strings are
api/cache/offline_cache/fallback/error_fallback_cache/
error_fallback_hardcoded); and when the fetch pipeline fails after both
endpoints (online, no fresh-cache hit), the source is
`error_fallback_cache` exactly when a readable cache entry (fresh or
stale) exists for the base currency, else `error_fallback_hardcoded`. -/
theorem claim_C2_provenance (st : ExchangeRateAPIService.SvcState)
    (e : ExchangeRateAPIService.Env) :
    (∀ res st', ExchangeRateAPIService.getExchangeRates st e = .ok (res, st') →
      res.source ∈ ExchangeRateAPIService.sourceTags)
    ∧ ((e.forceRefresh = true ∨
          ExchangeRateAPIService.getCachedRates st.store e.readOk e.now
            e.baseCurrency false = none) →
       e.isOnline = true →
       e.readOk = true →
       (∃ err, (ExchangeRateAPIService.fetchWithRetry e.oracle e.baseCurrency 3).1 =
          .error err) →
       ∀ res st', ExchangeRateAPIService.getExchangeRates st e = .ok (res, st') →
         ((∃ T v, getItem (ExchangeRateAPIService.cacheKeyFor e.baseCurrency) st.store =
              some (.table T) ∧
            getItem (ExchangeRateAPIService.tsKeyFor e.baseCurrency) st.store = some v) →
           res.source = .error_fallback_cache)
         ∧ ((¬ ∃ T v, getItem (ExchangeRateAPIService.cacheKeyFor e.baseCurrency) st.store =
              some (.table T) ∧
            getItem (ExchangeRateAPIService.tsKeyFor e.baseCurrency) st.store = some v) →
           res.source = .error_fallback_hardcoded)) := by
  open ExchangeRateAPIService ResolveProofs in
  (
  constructor
  · intro res st' h
    unfold getExchangeRates at h
    rcases htry : getExchangeRatesTry st e with err | r <;> rw [htry] at h
    · have hp : getExchangeRatesCatch st e = (res, st') := Except.ok.inj h
      have hfst : (getExchangeRatesCatch st e).1 = res := congrArg Prod.fst hp
      rw [← hfst]
      exact (catch_shape st e).2
    · have hp : r = (res, st') := Except.ok.inj h
      have hfst : r.1 = res := congrArg Prod.fst hp
      rw [← hfst]
      exact (tryOk_shape htry).2
  · intro hmiss hon hread herr res st' hok
    obtain ⟨err, herr⟩ := herr
    have htry : getExchangeRatesTry st e = .error err := by
      unfold getExchangeRatesTry
      have hnone : (if e.forceRefresh = false then
          getCachedRates st.store e.readOk e.now e.baseCurrency false else none) = none := by
        rcases hmiss with hF | hC
        · rw [hF]; simp
        · by_cases hFF : e.forceRefresh = false
          · rw [if_pos hFF]; exact hC
          · rw [if_neg hFF]
      rw [hnone]
      rw [hon]
      simp only [Bool.true_eq_false, if_false]
      unfold getExchangeRatesFetch
      rw [herr]
    unfold getExchangeRates at hok
    rw [htry] at hok
    have hp : getExchangeRatesCatch st e = (res, st') := Except.ok.inj hok
    have hres : (getExchangeRatesCatch st e).1 = res := congrArg Prod.fst hp
    rw [← hres]
    unfold getExchangeRatesCatch
    rw [hread]
    rcases hg : getCachedRates st.store true e.now e.baseCurrency true with _ | c
    · constructor
      · rintro ⟨T, v, hd, hv⟩
        obtain ⟨c, hc⟩ := @exists_stale_some st.store e.now e.baseCurrency T v hd hv
        rw [hg] at hc; cases hc
      · intro _
        simp [hg]
    · constructor
      · intro _
        simp [hg]
      · intro hne
        exact absurd (stale_some_exists hg) hne
  )

/-- Witness for C2: empty store, forced refresh, online, all six attempts
fail — the result's provenance is `error_fallback_hardcoded`. -/
theorem claim_C2_witness :
    ∃ res st', ExchangeRateAPIService.getExchangeRates
        ⟨[], 0, ExchangeRateAPIService.Metrics.init⟩ ExchangeRateAPIService.demoEnvFail =
      .ok (res, st') ∧ res.source = .error_fallback_hardcoded := by
  refine ⟨_, _, rfl, ?_⟩
  have h := (claim_C2_provenance ⟨[], 0, ExchangeRateAPIService.Metrics.init⟩
      ExchangeRateAPIService.demoEnvFail).2
    (Or.inl rfl) rfl rfl ⟨.transport, rfl⟩ _ _ rfl
  exact h.2 (by rintro ⟨T, v, hT, hv⟩; simp [getItem] at hT)

/-- Counterexample for C3 as stated: under the all-fail oracle the
realized trace contains a backoff sleep *between the two endpoint
attempts of round 0* — so the property "a backoff sleep occurs only
after all endpoints of a round have been tried, never between two
endpoint attempts belonging to the same round" is false of
`fetchWithRetry` (the sleep sits inside the per-endpoint catch). -/
theorem claim_C3_counterexample :
    ExchangeRateAPIService.sleepOnlyAfterRoundEnd 2
      (ExchangeRateAPIService.fetchWithRetry
        ExchangeRateAPIService.allFailOracle "USD" 3).2 none = false := by
  decide

/-- Claim C3 (amended): a backoff sleep of `1000 × (round + 1)` ms
immediately follows every *failed* attempt of a non-final round —
including between the two endpoint attempts of one round — and no sleep
occurs in the final round; on the first success `fetchWithRetry` returns
that table immediately, having started no further attempts; if all six
attempts fail it fails with the error of the last attempt (round 2,
endpoint 1).  The first conjunct is a complete adjacency discipline on
the realized trace (`backoffStep` admits attempt-then-attempt only in
the final round, so a non-final attempt followed by anything is followed
by its sleep, and rejects any other sleep placement); the second rules
out the one remaining escape — a failed non-final attempt ending the
trace — by showing that a non-final attempt in last position succeeded. -/
theorem claim_C3_retry_structure (o : ℕ → ℕ → ExchangeRateAPIService.AttemptResult)
    (b : String) :
    ExchangeRateAPIService.pairwiseOk (ExchangeRateAPIService.backoffStep 3)
      (ExchangeRateAPIService.fetchWithRetry o b 3).2 = true
    ∧ (∀ r u, ExchangeRateAPIService.lastEv (ExchangeRateAPIService.fetchWithRetry o b 3).2 =
          some (.attemptAt r u) → r < 2 →
        ∃ f, ExchangeRateAPIService.attemptEval (o r u) b = .ok f)
    ∧ (∀ f, ExchangeRateAPIService.firstSuccess (ExchangeRateAPIService.attemptSeq o b) =
          some f →
        (ExchangeRateAPIService.fetchWithRetry o b 3).1 = .ok f ∧
        ExchangeRateAPIService.attemptCount (ExchangeRateAPIService.fetchWithRetry o b 3).2 =
          ((ExchangeRateAPIService.attemptSeq o b).takeWhile
            ExchangeRateAPIService.isErrB).length + 1)
    ∧ (ExchangeRateAPIService.firstSuccess (ExchangeRateAPIService.attemptSeq o b) = none →
        ∃ err, ExchangeRateAPIService.attemptEval (o 2 1) b = .error err ∧
          (ExchangeRateAPIService.fetchWithRetry o b 3).1 = .error err) := by
  open ExchangeRateAPIService in
  (
  refine ⟨?_, ?_, ?_, ?_⟩
  · rcases h00 : attemptEval (o 0 0) b with e00 | f00 <;>
      rcases h01 : attemptEval (o 0 1) b with e01 | f01 <;>
      rcases h10 : attemptEval (o 1 0) b with e10 | f10 <;>
      rcases h11 : attemptEval (o 1 1) b with e11 | f11 <;>
      rcases h20 : attemptEval (o 2 0) b with e20 | f20 <;>
      rcases h21 : attemptEval (o 2 1) b with e21 | f21 <;>
      simp [fetchWithRetry, fetchRounds, fetchRound, pairwiseOk, backoffStep,
        h00, h01, h10, h11, h20, h21]
  · rcases h00 : attemptEval (o 0 0) b with e00 | f00 <;>
      rcases h01 : attemptEval (o 0 1) b with e01 | f01 <;>
      rcases h10 : attemptEval (o 1 0) b with e10 | f10 <;>
      rcases h11 : attemptEval (o 1 1) b with e11 | f11 <;>
      rcases h20 : attemptEval (o 2 0) b with e20 | f20 <;>
      rcases h21 : attemptEval (o 2 1) b with e21 | f21 <;>
      simp [fetchWithRetry, fetchRounds, fetchRound, lastEv,
        h00, h01, h10, h11, h20, h21]
  · rcases h00 : attemptEval (o 0 0) b with e00 | f00 <;>
      rcases h01 : attemptEval (o 0 1) b with e01 | f01 <;>
      rcases h10 : attemptEval (o 1 0) b with e10 | f10 <;>
      rcases h11 : attemptEval (o 1 1) b with e11 | f11 <;>
      rcases h20 : attemptEval (o 2 0) b with e20 | f20 <;>
      rcases h21 : attemptEval (o 2 1) b with e21 | f21 <;>
      simp [fetchWithRetry, fetchRounds, fetchRound, attemptSeq, firstSuccess,
        attemptCount, isErrB, h00, h01, h10, h11, h20, h21, List.findSome?]
  · rcases h00 : attemptEval (o 0 0) b with e00 | f00 <;>
      rcases h01 : attemptEval (o 0 1) b with e01 | f01 <;>
      rcases h10 : attemptEval (o 1 0) b with e10 | f10 <;>
      rcases h11 : attemptEval (o 1 1) b with e11 | f11 <;>
      rcases h20 : attemptEval (o 2 0) b with e20 | f20 <;>
      rcases h21 : attemptEval (o 2 1) b with e21 | f21 <;>
      simp [fetchWithRetry, fetchRounds, fetchRound, attemptSeq, firstSuccess,
        h00, h01, h10, h11, h20, h21, List.findSome?]
  )

/-- Witness for C3 (amended): with a success at round 1 / endpoint 0 the
pipeline returns that table after exactly 3 attempts; with the all-fail
oracle it fails with the last attempt's transport error. -/
theorem claim_C3_witness :
    ((ExchangeRateAPIService.fetchWithRetry
        ExchangeRateAPIService.demoSuccessOracle "USD" 3).1 = .ok ⟨[("EUR", 2)], "USD"⟩ ∧
      ExchangeRateAPIService.attemptCount
        (ExchangeRateAPIService.fetchWithRetry
          ExchangeRateAPIService.demoSuccessOracle "USD" 3).2 = 3) ∧
    ∃ err, ExchangeRateAPIService.attemptEval
        (ExchangeRateAPIService.allFailOracle 2 1) "USD" = .error err ∧
      (ExchangeRateAPIService.fetchWithRetry
        ExchangeRateAPIService.allFailOracle "USD" 3).1 = .error err := by
  constructor
  · have h := (claim_C3_retry_structure ExchangeRateAPIService.demoSuccessOracle "USD").2.2.1
      ⟨[("EUR", 2)], "USD"⟩ (by decide)
    exact ⟨h.1, by rw [h.2]; decide⟩
  · exact (claim_C3_retry_structure ExchangeRateAPIService.allFailOracle "USD").2.2.2 (by decide)

/-- Counterexample for C4 as stated: with the all-fail oracle and
instantaneous attempts, the two endpoint attempts of the final round both
start at 6000 ms — zero elapsed time apart — so "any two successive
network calls start at least 1 second apart" is false of the pipeline
(no rate-limiter acquire happens inside `fetchWithRetry`). -/
theorem claim_C4_counterexample :
    ¬ ExchangeRateAPIService.SpacedBy 1000
      (ExchangeRateAPIService.attemptStartTimes (fun _ => 0)
        (ExchangeRateAPIService.fetchWithRetry
          ExchangeRateAPIService.allFailOracle "USD" 3).2 0 0) := by
  intro h
  rw [show ExchangeRateAPIService.attemptStartTimes (fun _ => 0)
      (ExchangeRateAPIService.fetchWithRetry
        ExchangeRateAPIService.allFailOracle "USD" 3).2 0 0 =
      [0, 1000, 2000, 4000, 6000, 6000] from by decide] at h
  simp [ExchangeRateAPIService.SpacedBy, List.chain'_cons] at h

/-- Claim C4 (amended): successive network attempts are at least 1 s
apart only where a backoff sleep lies between them — which is after every
failed attempt except in the final round.  Formally, for every oracle and
every assignment of attempt durations, the start times of all attempts
except the last are 1000 ms-spaced; the final pair (the two endpoint
attempts of round 2) has no enforced spacing, as the counterexample
shows. -/
theorem claim_C4_spacing (o : ℕ → ℕ → ExchangeRateAPIService.AttemptResult)
    (b : String) (d : ℕ → ℕ) :
    ExchangeRateAPIService.SpacedBy 1000
      ((ExchangeRateAPIService.attemptStartTimes d
        (ExchangeRateAPIService.fetchWithRetry o b 3).2 0 0).dropLast) := by
  open ExchangeRateAPIService in
  (
  rcases h00 : attemptEval (o 0 0) b with e00 | f00 <;>
    rcases h01 : attemptEval (o 0 1) b with e01 | f01 <;>
    rcases h10 : attemptEval (o 1 0) b with e10 | f10 <;>
    rcases h11 : attemptEval (o 1 1) b with e11 | f11 <;>
    rcases h20 : attemptEval (o 2 0) b with e20 | f20 <;>
    rcases h21 : attemptEval (o 2 1) b with e21 | f21 <;>
    simp [fetchWithRetry, fetchRounds, fetchRound, attemptStartTimes, SpacedBy,
      List.dropLast, List.chain'_cons, h00, h01, h10, h11, h20, h21] <;>
    omega
  )
